import Mathlib

/-!
# Actionable Tabs — verification of the rule scheduling and execution engine

Shallow embedding, in Lean 4, of the scheduling / storage-migration / move
logic of the `actionable-tabs` browser extension, together with proofs about
the claims of its specification.

Conventions used throughout:

* Machine numbers are modelled as `Nat`/`Int`; timestamps are `Nat`
  (milliseconds or minutes since the epoch, as stated at each use site).
* JavaScript `try { ... } catch { ... }` around the third-party cron parser is
  modelled by parameterising the embedded functions over a
  `CronParser : String → Option (Nat → Nat)`: `none` models a parse (or
  `next()`) exception, `some nextAfter` models a successfully constructed
  iterator whose successive `next()` calls starting from `currentDate = t`
  produce `nextAfter t`, `nextAfter (nextAfter t)`, ….  The cron library
  itself is an external npm dependency (`cron-parser`), not repository code.
* Asynchronous browser storage (`browser.storage.sync`) is modelled as an
  explicit record of optional keys threaded through the functions.
-/

/-- JavaScript `String.prototype.trim()` whitespace (ASCII part; the unicode
space characters never occur in the inputs considered here). -/
def isJsWhitespace (c : Char) : Bool :=
  c = ' ' || c = '\t' || c = '\n' || c = '\x0d' || c = '\x0c' || c = '\x0b'

/-- Model of JavaScript `s.trim()`. -/
def jsTrim (s : String) : String :=
  ⟨((s.data.dropWhile isJsWhitespace).reverse.dropWhile isJsWhitespace).reverse⟩

/-- A string is "blank" when it is empty or whitespace-only; this is JS
`!s || !s.trim()`, the guard used at `src/storage.ts:88` and in the settings
UI to mean "no scheduled run". -/
def isBlankSchedule (s : String) : Bool :=
  s = "" || jsTrim s = ""

/-- Model of the external `cron-parser` library interface as used by the
repository: `parse expr` is `none` when `CronExpressionParser.parse` (or the
subsequent `interval.next()`) throws, and `some nextAfter` otherwise, where
`nextAfter t` is the first occurrence of the expression strictly after
instant `t` (the iterator is created with `currentDate = t`). -/
def CronParser : Type :=
  String → Option (Nat → Nat)

/-- Embedding of `parseCronToNextDelay` (`src/src/background.js:218-245`).
Times are milliseconds; the result is minutes.  JS computes
`Math.max(1, Math.ceil((next - now) / 60000))`, which coincides with the
`Nat` computation below also when `next ≤ now` (both give `1`). -/
def parseCronToNextDelay (parse : CronParser) (cronSchedule : String) (now : Nat) : Nat :=
  match parse cronSchedule with
  | none => 30
  | some nextAfter => max 1 ((nextAfter now - now + 59999) / 60000)

/-- The `while (true)` loop body of `calculateMissedMoves`
(`src/src/background.js:264-277`), with an explicit fuel argument so the
recursion is structural.  The loop breaks as soon as the next occurrence lies
after `now`, and otherwise increments `missedCount` and breaks (after the
increment) once `missedCount > 10000`; `missedLoop_fuel_irrel` below shows
any fuel above `10001 - count` computes the same value, i.e. the JS loop
always terminates. -/
def missedLoop (nextAfter : Nat → Nat) (now : Nat) : Nat → Nat → Nat → Nat
  | 0, _, count => count
  | fuel + 1, cur, count =>
    let nextDate := nextAfter cur
    if now < nextDate then count
    else if 10000 < count + 1 then count + 1
    else missedLoop nextAfter now fuel nextDate (count + 1)

/-- Embedding of `calculateMissedMoves` (`src/src/background.js:253-284`):
iterator created with `currentDate = lastMoveTime`, then the capped counting
loop; a parse failure (`catch`) returns `0`. -/
def calculateMissedMoves (parse : CronParser) (cronSchedule : String)
    (lastMoveTime : Nat) (now : Nat) : Nat :=
  match parse cronSchedule with
  | none => 0
  | some nextAfter => missedLoop nextAfter now 10002 lastMoveTime 0

/-- Modelled from the spec: `delayMinutesUntilNext` (§4.1) belongs to the
rules-based scheduler, whose driver is not among the repository sources here;
only its two ingredients are: the blank-schedule guard ("no scheduled run",
`src/src/storage.ts:87-90`) and the delay computation with its 30-minute
parse-failure fallback (`parseCronToNextDelay`, `src/src/background.js`).
The wrapper composes exactly those two pieces. -/
def delayMinutesUntilNext (parse : CronParser) (expression : String) (now : Nat) :
    Option Nat :=
  if isBlankSchedule expression then none
  else some (parseCronToNextDelay parse expression now)

/-- Cron model for the expression `"*/30 * * * *"`, at minute granularity:
occurrences are the wall-clock instants whose minute-of-hour is a multiple of
30, i.e. (for timezone offsets that are whole multiples of 30 minutes, such
as UTC) the multiples of 30 in minutes-since-epoch.  Every other expression
is rejected. -/
def cron30Parser : CronParser := fun s =>
  if s = "*/30 * * * *" then some (fun t => (t / 30 + 1) * 30) else none

/-- Cron model for `"* * * * *"` (every minute), minute granularity. -/
def cronEveryMinuteParser : CronParser := fun s =>
  if s = "* * * * *" then some (fun t => t + 1) else none

/-- Embedding of the `Rule` type (`src/src/storage.ts:1-9`).  The string
union types are modelled as `String`; `lastMoveTime : number | null` becomes
`Option Int` (`none` = `null`). -/
structure Rule where
  id : String
  cronSchedule : String
  queueMode : String
  lastMoveTime : Option Int
  moveCount : Int
  moveDirection : String
  showNotifications : Bool
deriving Repr, DecidableEq

/-- The default rule of `DEFAULTS` (`src/src/storage.ts:35-48`). -/
def defaultRule : Rule :=
  { id := "default-rule-001"
    cronSchedule := "*/30 * * * *"
    queueMode := "leftmost"
    lastMoveTime := none
    moveCount := 1
    moveDirection := "left"
    showNotifications := true }

/-- The `browser.storage.sync` content as seen by `getSettings`
(`src/src/storage.ts`): the two versioned-envelope keys plus the six legacy
flat keys.  `none` models an absent key.  The stored `lastMoveTime` value can
itself be `null`, hence `Option (Option Int)`. -/
structure Store where
  version : Option Nat
  rules : Option (List Rule)
  cronSchedule : Option String
  queueMode : Option String
  lastMoveTime : Option (Option Int)
  moveCount : Option Int
  moveDirection : Option String
  showNotifications : Option Bool
deriving Repr, DecidableEq

/-- Embedding of `migrateQueueMode` (`src/src/storage.ts:124-142`); the
argument is the possibly-absent stored value, as in the source
(`queueMode?: string`). -/
def migrateQueueMode (queueMode : Option String) : Option String :=
  match queueMode with
  | some "leftmost-first" => some "leftmost"
  | some "rightmost-first" => some "rightmost"
  | some "oldest-first" => some "oldest"
  | some "newest-first" => some "newest"
  | some "oldest" => some "oldest"
  | some "newest" => some "newest"
  | some "leftmost" => some "leftmost"
  | some "rightmost" => some "rightmost"
  | _ => none

/-- JS truthiness fallback `v || d` for an optional string value. -/
def jsOrString (v : Option String) (d : String) : String :=
  match v with
  | some s => if s = "" then d else s
  | none => d

/-- JS `settings.lastMoveTime || null` applied to the stored legacy value:
absent, `null` and `0` all collapse to `null`. -/
def jsOrNullTime (v : Option (Option Int)) : Option Int :=
  match v with
  | some (some t) => if t = 0 then none else some t
  | _ => none

/-- JS truthiness fallback `v || d` for an optional number value. -/
def jsOrInt (v : Option Int) (d : Int) : Int :=
  match v with
  | some n => if n = 0 then d else n
  | none => d

/-- The single rule synthesised from the legacy flat fields
(`src/src/storage.ts:197-209`).  Falsy present values (empty string, `0`)
fall back to the defaults via `||`, except `showNotifications`, which uses an
explicit `!== undefined` presence check. -/
def legacyMigratedRule (st : Store) : Rule :=
  { id := "legacy"
    cronSchedule := jsOrString st.cronSchedule defaultRule.cronSchedule
    queueMode := jsOrString (migrateQueueMode st.queueMode) defaultRule.queueMode
    lastMoveTime := jsOrNullTime st.lastMoveTime
    moveCount := jsOrInt st.moveCount defaultRule.moveCount
    moveDirection := jsOrString st.moveDirection defaultRule.moveDirection
    showNotifications := st.showNotifications.getD defaultRule.showNotifications }

/-- The returned settings value: version tag plus rule list
(`src/src/storage.ts:23-33`). -/
structure Settings where
  version : Option Nat
  rules : List Rule
deriving Repr, DecidableEq

/-- `needsMigration` (`src/src/storage.ts:185-191`): any of the six legacy
flat fields is present. -/
def needsMigration (st : Store) : Bool :=
  st.cronSchedule.isSome || st.queueMode.isSome || st.lastMoveTime.isSome ||
  st.moveCount.isSome || st.moveDirection.isSome || st.showNotifications.isSome

/-- Per-rule stale queue-mode migration of the version-1 branch
(`src/src/storage.ts:159-166`): replace the queue mode when
`migrateQueueMode` returns a different spelling. -/
def migrateRuleQueueMode (r : Rule) : Rule :=
  match migrateQueueMode (some r.queueMode) with
  | some m => if m ≠ r.queueMode then { r with queueMode := m } else r
  | none => r

/-- Embedding of `getSettings` (`src/src/storage.ts:147-255`) as a pure
function from the persisted store to the returned `Settings` together with
the store as left after all `browser.storage.sync.set` / `.remove` calls.
`storage.sync.set` merges the written keys into the store; `.remove` deletes
keys. -/
def getSettings (st : Store) : Settings × Store :=
  if st.version = some 1 then
    -- version-1 branch: `browser.storage.sync.get(DEFAULTS)` fills the two
    -- envelope keys from the store, defaulting absent ones.
    let rules0 := st.rules.getD [defaultRule]
    let migrated := rules0.map migrateRuleQueueMode
    let needsRuleMigration := migrated ≠ rules0
    let st1 := if needsRuleMigration then { st with rules := some migrated } else st
    -- "Ensure there's always at least one rule" (`src/src/storage.ts:174-179`)
    if migrated.isEmpty then
      ({ version := some 1, rules := [defaultRule] },
        { st1 with rules := some [defaultRule] })
    else
      ({ version := some 1, rules := migrated }, st1)
  else if needsMigration st then
    -- legacy migration branch (`src/src/storage.ts:193-238`)
    let newSettings : Settings := { version := some 1, rules := [legacyMigratedRule st] }
    let st1 := { st with version := some 1, rules := some newSettings.rules }
    let st2 := { st1 with
      cronSchedule := none, queueMode := none, lastMoveTime := none,
      moveCount := none, moveDirection := none, showNotifications := none }
    (newSettings, st2)
  else
    -- first-run branch (`src/src/storage.ts:240-254`)
    ({ version := some 1, rules := [defaultRule] },
      { st with version := some 1, rules := some [defaultRule] })

/-- The next-occurrence instant of a single rule, as computed inside the loop
of `getNextExecutingRulesWithParser` (`src/src/storage.ts:84-115`): `none`
when the schedule is blank (skipped) or the parser throws (caught and
skipped), otherwise the `executionTime` of the first `interval.next()`. -/
def ruleTime (parse : CronParser) (now : Nat) (r : Rule) : Option Nat :=
  if isBlankSchedule r.cronSchedule then none
  else
    match parse r.cronSchedule with
    | none => none
    | some nextAfter => some (nextAfter now)

/-- The `(index, executionTime)` candidates of a rule list, indices starting
at `i` — the rules `getNextExecutingRulesWithParser` does not skip. -/
def ruleTimes (parse : CronParser) (now : Nat) : List Rule → Nat → List (Nat × Nat)
  | [], _ => []
  | r :: rs, i =>
    match ruleTime parse now r with
    | some t => (i, t) :: ruleTimes parse now rs (i + 1)
    | none => ruleTimes parse now rs (i + 1)

/-- The loop of `getNextExecutingRulesWithParser` (`src/src/storage.ts:84-116`)
with its mutable state (`nextExecutionTime`, `nextRuleIndices`) made explicit.
JS tests `!nextExecutionTime`, which is true both for `null` and for the
number `0`; the `m = 0` branch reproduces that truthiness check. -/
def gnerGo (parse : CronParser) (now : Nat) :
    List Rule → Nat → Option Nat → List Nat → List Nat
  | [], _, _, acc => acc
  | r :: rs, i, t, acc =>
    if isBlankSchedule r.cronSchedule then gnerGo parse now rs (i + 1) t acc
    else
      match parse r.cronSchedule with
      | none => gnerGo parse now rs (i + 1) t acc
      | some nextAfter =>
        let executionTime := nextAfter now
        match t with
        | none => gnerGo parse now rs (i + 1) (some executionTime) (acc ++ [i])
        | some m =>
          if m = 0 then gnerGo parse now rs (i + 1) (some executionTime) (acc ++ [i])
          else if executionTime = m then gnerGo parse now rs (i + 1) (some m) (acc ++ [i])
          else if executionTime < m then gnerGo parse now rs (i + 1) (some executionTime) [i]
          else gnerGo parse now rs (i + 1) t acc

/-- Embedding of `getNextExecutingRulesWithParser` (`src/src/storage.ts:70-119`);
`now` is the `currentDate` passed to the parser options. -/
def getNextExecutingRulesWithParser (rules : List Rule) (parse : CronParser)
    (now : Nat) : List Nat :=
  gnerGo parse now rules 0 none []

/-- Running minimum of an optional seed and the times of a candidate list. -/
def minTime : Option Nat → List (Nat × Nat) → Option Nat
  | t, [] => t
  | t, c :: cs => minTime (some (match t with | none => c.2 | some m => min m c.2)) cs

/-- The loop of `getNextExecutingRulesWithParser` restricted to its
non-skipped candidates; `gnerGo_eq_goSpec` relates the two (the `0`
truthiness branch of `gnerGo` is unreachable for positive execution times). -/
def goSpec : Option Nat → List Nat → List (Nat × Nat) → List Nat
  | _, acc, [] => acc
  | t, acc, c :: cs =>
    match t with
    | none => goSpec (some c.2) (acc ++ [c.1]) cs
    | some m =>
      if c.2 = m then goSpec (some m) (acc ++ [c.1]) cs
      else if c.2 < m then goSpec (some c.2) [c.1] cs
      else goSpec (some m) acc cs

/-- State of the settings page (`src/unnamed/part_002`): the in-memory
`settings.value.rules` signal and the `rules` key of `browser.storage.sync`
as left once the debounced `browser.storage.sync.set(pendingChanges)` write
has flushed (the 500 ms debounce window is collapsed — time is not
modelled). -/
structure UiState where
  rules : List Rule
  persisted : List Rule
deriving Repr, DecidableEq

/-- Embedding of `autoSaveRules` (`src/unnamed/part_002:101-125`): an empty
rule list is rejected (warning logged, state untouched); otherwise the signal
is updated and the list is persisted. -/
def autoSaveRules (newRules : List Rule) (st : UiState) : UiState :=
  if newRules.isEmpty then st
  else { rules := newRules, persisted := newRules }

/-- Embedding of `addRule` (`src/unnamed/part_002:133-145`); `freshId` stands
for the `crypto.randomUUID()` result. -/
def uiAddRule (freshId : String) (st : UiState) : UiState :=
  autoSaveRules (st.rules ++
    [{ id := freshId, cronSchedule := "*/30 * * * *", queueMode := "leftmost-first",
       lastMoveTime := none, moveCount := 1, moveDirection := "left",
       showNotifications := true }]) st

/-- Embedding of `removeRule` (`src/unnamed/part_002:147-156`): removing the
last rule is refused; `filter((_, i) => i !== index)` is `List.eraseIdx`. -/
def uiRemoveRule (index : Nat) (st : UiState) : UiState :=
  if st.rules.length ≤ 1 then st
  else autoSaveRules (st.rules.eraseIdx index) st

/-- JS `array.splice(n, 0, x)` insertion: a negative index counts from the
end (clamped at 0), an index past the end appends. -/
def jsSpliceInsert (n : Int) (x : α) (l : List α) : List α :=
  let i := if n < 0 then ((l.length : Int) + n).toNat else n.toNat
  l.take i ++ x :: l.drop i

/-- Embedding of `moveRule` (`src/unnamed/part_002:158-165`).  The settings
page only offers the up/down buttons at indices where they keep `index` and
`newIndex` in range, so `index` is always valid; for an out-of-range `index`
the JS code would splice an `undefined` hole into the array, which has no
counterpart in the typed model, and the state is left unchanged instead. -/
def uiMoveRule (index : Nat) (up : Bool) (st : UiState) : UiState :=
  match st.rules[index]? with
  | none => st
  | some r =>
    let newIndex : Int := if up then (index : Int) - 1 else (index : Int) + 1
    autoSaveRules (jsSpliceInsert newIndex r (st.rules.eraseIdx index)) st

/-- Embedding of `updateRule` (`src/unnamed/part_002:127-131`):
`newRules[index] = { ...newRules[index], ...updates }`, with the field
updates abstracted as a function `f`. -/
def uiUpdateRule (index : Nat) (f : Rule → Rule) (st : UiState) : UiState :=
  autoSaveRules (st.rules.mapIdx (fun i r => if i = index then f r else r)) st

/-- An entry of `actionableTabsData` (`src/src/tab.js:17-29`): the tab id,
the session value `data.markedAt`, and the tab's current position
`tab.index`. -/
structure ActTab where
  tabId : Nat
  markedAt : Int
  index : Nat
deriving Repr, DecidableEq

/-- The four queue-mode comparators of `getActionableTabsSorted`
(`src/src/tab.js:31-44`).  JavaScript `Array.prototype.sort` with a
difference comparator is the stable sort for the corresponding non-strict
key order; `List.insertionSort` with that order is stable in the same sense
(an element is inserted before the suffix elements it compares ≤ to), so it
computes the same list.  An unrecognised queue mode matches no `case` and
leaves the list in its original (tab) order. -/
def sortActionableTabs (queueMode : String) (tabs : List ActTab) : List ActTab :=
  if queueMode = "oldest-first" then
    List.insertionSort (fun a b => a.markedAt ≤ b.markedAt) tabs
  else if queueMode = "newest-first" then
    List.insertionSort (fun a b => b.markedAt ≤ a.markedAt) tabs
  else if queueMode = "leftmost-first" then
    List.insertionSort (fun a b => a.index ≤ b.index) tabs
  else if queueMode = "rightmost-first" then
    List.insertionSort (fun a b => b.index ≤ a.index) tabs
  else tabs

/-- A browser tab as queried from the window (`browser.tabs.query`): its
possibly-missing id, its position, and whether it is pinned. -/
structure Tab where
  id : Option Nat
  index : Nat
  pinned : Bool
deriving Repr, DecidableEq

/-- `allTabs.filter(t => t.id != null)` (`src/src/tab.js:93-96`). -/
def validTabs (allTabs : List Tab) : List Tab :=
  allTabs.filter (fun t => t.id.isSome)

/-- Embedding of `getTargetIndexForActionableTabs` (`src/src/tab.js:91-106`):
`right` targets the end of the strip (valid-tab count), anything else the
position just after the pinned tabs (pinned-tab count). -/
def getTargetIndexForActionableTabs (moveDirection : String) (allTabs : List Tab) : Nat :=
  if moveDirection = "right" then (validTabs allTabs).length
  else ((validTabs allTabs).filter (fun t => t.pinned)).length

/-- One entry of `moveResults` (`src/src/tab.js:167-168`).  `desiredIndex`
additionally records the index the loop passed to `browser.tabs.move` (a
local constant in the source), so the requested destinations can be spoken
about directly. -/
structure MoveResult where
  tabId : Nat
  oldIndex : Nat
  desiredIndex : Nat
  newIndex : Nat
  didMove : Bool
deriving Repr, DecidableEq

/-- The move loop of `moveActionableTabs` (`src/src/tab.js:170-203`), with
the host move primitive abstracted as `mv : tabId → desiredIndex →
Option newIndex` (`none` models a thrown move error, handled by recording
`newIndex = oldIndex`, `didMove = false` and continuing).  `i` is the loop
counter. -/
def moveLoop (mv : Nat → Nat → Option Nat) (targetIndex : Nat) :
    List ActTab → Nat → List MoveResult
  | [], _ => []
  | a :: rest, i =>
    let desiredIndex := targetIndex + i
    let result :=
      match mv a.tabId desiredIndex with
      | some newIndex =>
        { tabId := a.tabId, oldIndex := a.index, desiredIndex := desiredIndex,
          newIndex := newIndex, didMove := decide (a.index ≠ newIndex) }
      | none =>
        { tabId := a.tabId, oldIndex := a.index, desiredIndex := desiredIndex,
          newIndex := a.index, didMove := false }
    result :: moveLoop mv targetIndex rest (i + 1)

/-- Embedding of `moveActionableTabs` (`src/src/tab.js:166-206`). -/
def moveActionableTabs (mv : Nat → Nat → Option Nat)
    (actionableTabsData : List ActTab) (targetIndex : Nat) : List MoveResult :=
  moveLoop mv targetIndex actionableTabsData 0

/-- The notifications `moveActionableTabsToTop` can create
(`src/src/background.js:402-409,448-486`); the message text is summarised by
the constructor. -/
inductive Notification where
  | noActionableTabs
  | pulledSingle
  | movedMultiple
  | alreadyAtTop
deriving Repr, DecidableEq

/-- Observable outcome of one `moveActionableTabsToTop` invocation: the
per-tab move results (empty when no `browser.tabs.move` call was issued),
the notifications created, and whether `lastMoveTime` was written
(`browser.storage.sync.set({ lastMoveTime: Date.now() })`). -/
structure ExecOutcome where
  results : List MoveResult
  notifications : List Notification
  lastMoveTimeSet : Bool
deriving Repr, DecidableEq

/-- Embedding of `moveActionableTabsToTop` (`src/src/background.js:391-487`).
`queueMode`, `moveCountSetting` and `showNotifications` are the raw stored
settings values (resolved against the defaults with JS `||` exactly as the
source does); `fetched` is the actionable-tab data collected by the query
loop of `getActionableTabsSorted` in tab order, to which the queue-mode sort
is applied; `allTabs` is the window snapshot used for the target index
(this file's `getTargetIndexForActionableTabs` with a non-`right` direction
equals the direction-less variant defined at `src/src/background.js:380-385`);
`mv` is the move primitive.  `moveCount` is 1 for a manual invocation.  The
`slice(0, moveCount)` is `take` (the settings UI constrains `moveCount` to
1..10). -/
def moveActionableTabsToTop (isManual : Bool) (queueMode : Option String)
    (moveCountSetting : Option Int) (showNotifications : Option Bool)
    (fetched : List ActTab) (allTabs : List Tab)
    (mv : Nat → Nat → Option Nat) : ExecOutcome :=
  let qm := jsOrString queueMode "leftmost-first"
  let moveCount : Int := if isManual then 1 else jsOrInt moveCountSetting 1
  let actionableTabsData := sortActionableTabs qm fetched
  if actionableTabsData.isEmpty then
    { results := []
      notifications := if isManual then [Notification.noActionableTabs] else []
      lastMoveTimeSet := false }
  else
    let targetIndex := getTargetIndexForActionableTabs "left" allTabs
    let tabsToMove := actionableTabsData.take moveCount.toNat
    let moveResults := moveActionableTabs mv tabsToMove targetIndex
    let anyTabMoved := moveResults.any (fun r => r.didMove)
    let notifications :=
      if isManual then
        if anyTabMoved then
          if moveResults.length = 1 then [Notification.pulledSingle]
          else [Notification.movedMultiple]
        else [Notification.alreadyAtTop]
      else
        if anyTabMoved && !(showNotifications = some false) then
          if moveResults.length = 1 then [Notification.pulledSingle]
          else [Notification.movedMultiple]
        else []
    { results := moveResults
      notifications := notifications
      lastMoveTimeSet := !isManual }

/-- The full characterisation of `getNextExecutingRulesWithParser` claimed by
the spec: the function returns exactly the indices, in ascending list order,
of the rules whose next occurrence time is minimal among all rules with a
non-blank, parsable schedule (the candidates `ruleTimes`); blank or
unparsable rules never appear; the result is empty when there is no
candidate. -/
def nextExecutingSpec (parse : CronParser) (now : Nat) (rules : List Rule) : Prop :=
  getNextExecutingRulesWithParser rules parse now
    = ((ruleTimes parse now rules 0).filter
        (fun c => (ruleTimes parse now rules 0).all (fun d => decide (c.2 ≤ d.2)))).map Prod.fst
  ∧ List.Pairwise (fun a b => a < b) (getNextExecutingRulesWithParser rules parse now)
  ∧ (∀ j t, ((j, t) ∈ ruleTimes parse now rules 0
      ↔ ∃ r, rules[j]? = some r ∧ ruleTime parse now r = some t))
  ∧ (ruleTimes parse now rules 0 = [] → getNextExecutingRulesWithParser rules parse now = [])

/-- A two-expression cron model used to instantiate the scheduler-selection
theorem: one schedule next firing at instant 5, one at instant 3. -/
def c10Parser : CronParser := fun s =>
  if s = "5 0 * * *" then some (fun _ => 5)
  else if s = "3 0 * * *" then some (fun _ => 3)
  else none

/-- Rules whose schedules fire at 5, 3, never (blank), never (unparsable)
and 3 again: the earliest-firing rules are those at indices 1 and 4. -/
def c10Rules : List Rule :=
  [{ defaultRule with cronSchedule := "5 0 * * *" },
   { defaultRule with cronSchedule := "3 0 * * *" },
   { defaultRule with cronSchedule := "  " },
   { defaultRule with cronSchedule := "oops" },
   { defaultRule with cronSchedule := "3 0 * * *" }]

/-- A store containing only the legacy flat field `queueMode = "oldest-first"`
(the legacy default-format spelling) and no version marker. -/
def c1CounterStore : Store :=
  { version := none, rules := none, cronSchedule := none,
    queueMode := some "oldest-first", lastMoveTime := none, moveCount := none,
    moveDirection := none, showNotifications := none }

/-- A fully-populated legacy flat store with no version marker. -/
def c1WitnessStore : Store :=
  { version := none, rules := none, cronSchedule := some "0 * * * *",
    queueMode := some "newest-first", lastMoveTime := some (some 5),
    moveCount := some 3, moveDirection := some "right",
    showNotifications := some false }

/-- What the legacy migration of `getSettings` produces, stated field by
field in the claim's vocabulary: a version-1 envelope holding exactly one
rule with the fixed id `"legacy"`, each of whose five legacy-derived fields
equals the present legacy value (with legacy queue-mode spellings
normalised) and falls back to the default exactly when the stored value is
absent or falsy (for `showNotifications`: absent only), with all six legacy
flat keys removed from the persisted store. -/
def legacyMigrationOutcome (st : Store) : Prop :=
  ∃ r : Rule,
    (getSettings st).1 = { version := some 1, rules := [r] }
    ∧ (getSettings st).2.rules = some [r]
    ∧ (getSettings st).2.version = some 1
    ∧ r.id = "legacy"
    ∧ (∀ s, st.cronSchedule = some s → s ≠ "" → r.cronSchedule = s)
    ∧ ((st.cronSchedule = none ∨ st.cronSchedule = some "") →
        r.cronSchedule = "*/30 * * * *")
    ∧ (∀ s m, st.queueMode = some s → migrateQueueMode (some s) = some m → r.queueMode = m)
    ∧ (migrateQueueMode st.queueMode = none → r.queueMode = "leftmost")
    ∧ (∀ n, st.moveCount = some n → n ≠ 0 → r.moveCount = n)
    ∧ ((st.moveCount = none ∨ st.moveCount = some 0) → r.moveCount = 1)
    ∧ (∀ s, st.moveDirection = some s → s ≠ "" → r.moveDirection = s)
    ∧ ((st.moveDirection = none ∨ st.moveDirection = some "") → r.moveDirection = "left")
    ∧ (∀ b, st.showNotifications = some b → r.showNotifications = b)
    ∧ (st.showNotifications = none → r.showNotifications = true)
    ∧ (∀ t, st.lastMoveTime = some (some t) → t ≠ 0 → r.lastMoveTime = some t)
    ∧ ((st.lastMoveTime = none ∨ st.lastMoveTime = some none
        ∨ st.lastMoveTime = some (some 0)) → r.lastMoveTime = none)
    ∧ (getSettings st).2.cronSchedule = none
    ∧ (getSettings st).2.queueMode = none
    ∧ (getSettings st).2.lastMoveTime = none
    ∧ (getSettings st).2.moveCount = none
    ∧ (getSettings st).2.moveDirection = none
    ∧ (getSettings st).2.showNotifications = none

theorem missedLoop_le (nextAfter : Nat → Nat) (now : Nat) :
    ∀ fuel cur count, count ≤ 10000 → missedLoop nextAfter now fuel cur count ≤ 10001 := by
  intro fuel
  induction fuel with
  | zero => intro cur count h; simp only [missedLoop]; omega
  | succ f ih =>
    intro cur count h
    simp only [missedLoop]
    split_ifs with h1 h2
    · omega
    · omega
    · exact ih _ _ (by omega)

theorem missedLoop_fuel_irrel (nextAfter : Nat → Nat) (now : Nat) :
    ∀ f1 f2 cur count, 10001 - count < f1 → 10001 - count < f2 →
      missedLoop nextAfter now f1 cur count = missedLoop nextAfter now f2 cur count := by
  intro f1
  induction f1 with
  | zero => intro f2 cur count h1 h2; exact absurd h1 (by omega)
  | succ a ih =>
    intro f2 cur count h1 h2
    obtain ⟨b, rfl⟩ : ∃ b, f2 = b + 1 := ⟨f2 - 1, by omega⟩
    simp only [missedLoop]
    split_ifs with hA hB
    · rfl
    · rfl
    · exact ih b _ _ (by omega) (by omega)

theorem missedLoop_everyMinute (now : Nat) :
    ∀ fuel cur count, count ≤ 10000 → cur + (10001 - count) ≤ now → 10001 - count < fuel →
      missedLoop (fun t => t + 1) now fuel cur count = 10001 := by
  intro fuel
  induction fuel with
  | zero => intro cur count h1 h2 h3; exact absurd h3 (by omega)
  | succ f ih =>
    intro cur count h1 h2 h3
    simp only [missedLoop]
    rw [if_neg (by omega : ¬(now < cur + 1))]
    by_cases hc : 10000 < count + 1
    · rw [if_pos hc]; omega
    · rw [if_neg hc]
      exact ih (cur + 1) (count + 1) (by omega) (by omega) (by omega)

theorem missedLoop_cron30 (now : Nat) :
    ∀ fuel cur count, count + (now / 30 - cur / 30) ≤ 10000 → now / 30 - cur / 30 < fuel →
      missedLoop (fun t => (t / 30 + 1) * 30) now fuel cur count
        = count + (now / 30 - cur / 30) := by
  intro fuel
  induction fuel with
  | zero => intro cur count h1 h2; exact absurd h2 (by omega)
  | succ f ih =>
    intro cur count h1 h2
    simp only [missedLoop]
    by_cases hbreak : now < (cur / 30 + 1) * 30
    · rw [if_pos hbreak]; omega
    · rw [if_neg hbreak]
      rw [if_neg (by omega : ¬(10000 < count + 1))]
      rw [ih ((cur / 30 + 1) * 30) (count + 1) (by omega) (by omega)]
      omega

/-- C3: `delayMinutesUntilNext` yields no delay (and hence no timer) for an
empty or whitespace-only cron expression, for every parser behaviour and
every instant. -/
theorem c3_blank_schedule_no_delay (parse : CronParser) (now : Nat) (s : String)
    (h : isBlankSchedule s = true) : delayMinutesUntilNext parse s now = none := by
  simp [delayMinutesUntilNext, h]

theorem c3_blank_schedule_no_delay_witness :
    (isBlankSchedule "" = true ∧ delayMinutesUntilNext cron30Parser "" 7 = none)
    ∧ (isBlankSchedule "   " = true ∧ delayMinutesUntilNext cron30Parser "   " 7 = none) :=
  ⟨⟨by decide, c3_blank_schedule_no_delay cron30Parser 7 "" (by decide)⟩,
   ⟨by decide, c3_blank_schedule_no_delay cron30Parser 7 "   " (by decide)⟩⟩

/-- C4: on a parse failure (syntactically invalid non-empty expression) the
delay computation degrades to the 30-minute fallback while the miss-counting
computation degrades to 0 — neither propagates the error. -/
theorem c4_invalid_cron_degrades (parse : CronParser) (expr : String) (now since : Nat)
    (h : parse expr = none) :
    parseCronToNextDelay parse expr now = 30
    ∧ calculateMissedMoves parse expr since now = 0 := by
  constructor <;> simp [parseCronToNextDelay, calculateMissedMoves, h]

theorem c4_invalid_cron_degrades_witness :
    cron30Parser "61 * * * *" = none
    ∧ parseCronToNextDelay cron30Parser "61 * * * *" 5 = 30
    ∧ calculateMissedMoves cron30Parser "61 * * * *" 3 5 = 0 := by
  have h : cron30Parser "61 * * * *" = none := rfl
  exact ⟨h, (c4_invalid_cron_degrades cron30Parser "61 * * * *" 5 3 h).1,
    (c4_invalid_cron_degrades cron30Parser "61 * * * *" 5 3 h).2⟩

/-- C5 counterexample: for an every-minute schedule with 20000 minutes of
downtime the loop returns 10001 — the increment happens before the cap
check, so the returned count exceeds the claimed bound of 10,000. -/
theorem c5_cap_overshoot_counterexample :
    calculateMissedMoves cronEveryMinuteParser "* * * * *" 0 20000 = 10001
    ∧ 10000 < 10001 := by
  refine ⟨?_, by omega⟩
  have hp : cronEveryMinuteParser "* * * * *" = some (fun t => t + 1) := rfl
  simp only [calculateMissedMoves, hp]
  exact missedLoop_everyMinute 20000 10002 0 0 (by omega) (by omega) (by omega)

/-- C5 (amended): for every parser, expression and pair of instants the
miss-counting loop terminates — its value is independent of the fuel bound
once the fuel exceeds the worst-case 10001 iterations — and the returned
count never exceeds 10,001 (the post-increment cap check can overshoot the
10,000 cap by exactly one). -/
theorem c5_missed_count_cap (parse : CronParser) (expr : String) (since now : Nat) :
    calculateMissedMoves parse expr since now ≤ 10001
    ∧ ∀ fuel, 10001 < fuel →
        (match parse expr with
         | none => 0
         | some nextAfter => missedLoop nextAfter now fuel since 0)
          = calculateMissedMoves parse expr since now := by
  constructor
  · unfold calculateMissedMoves
    cases hp : parse expr with
    | none => simp
    | some nextAfter =>
      simpa using missedLoop_le nextAfter now 10002 since 0 (by omega)
  · intro fuel hfuel
    unfold calculateMissedMoves
    cases hp : parse expr with
    | none => rfl
    | some nextAfter =>
      simpa using missedLoop_fuel_irrel nextAfter now fuel 10002 since 0 (by omega) (by omega)

theorem c5_missed_count_cap_witness :
    calculateMissedMoves cron30Parser "*/30 * * * *" 0 200 ≤ 10001
    ∧ (10001 < 20000 ∧
        (match cron30Parser "*/30 * * * *" with
         | none => 0
         | some nextAfter => missedLoop nextAfter 200 20000 0 0)
          = calculateMissedMoves cron30Parser "*/30 * * * *" 0 200) :=
  ⟨(c5_missed_count_cap cron30Parser "*/30 * * * *" 0 200).1,
   by omega,
   (c5_missed_count_cap cron30Parser "*/30 * * * *" 0 200).2 20000 (by omega)⟩

/-- C6 counterexample: cron occurrences are aligned to the wall clock, not to
`lastMoveTime`; with `now = 120` minutes (on a half-hour boundary) and
`lastMoveTime = now - 95 = 25`, the occurrences 30, 60, 90 and 120 all lie in
the window, so the count is 4, not 3. -/
theorem c6_counterexample :
    (25 : Nat) = 120 - 95
    ∧ calculateMissedMoves cron30Parser "*/30 * * * *" 25 120 = 4
    ∧ (4 : Nat) ≠ 3 := by
  refine ⟨by omega, ?_, by omega⟩
  have hp : cron30Parser "*/30 * * * *" = some (fun t => (t / 30 + 1) * 30) := rfl
  simp only [calculateMissedMoves, hp]
  rw [missedLoop_cron30 120 10002 25 0 (by omega) (by omega)]

/-- C6 (amended): when `lastMoveTime` falls on a 30-minute wall-clock
boundary (so the next occurrences are at +30, +60, +90, +120 minutes) and
`now = lastMoveTime + 95` minutes, `calculateMissedMoves` returns 3: the
occurrences at +30, +60 and +90 are `≤ now`, the one at +120 is not. -/
theorem c6_missed_moves_aligned (k : Nat) :
    calculateMissedMoves cron30Parser "*/30 * * * *" (30 * k) (30 * k + 95) = 3 := by
  have hp : cron30Parser "*/30 * * * *" = some (fun t => (t / 30 + 1) * 30) := rfl
  simp only [calculateMissedMoves, hp]
  rw [missedLoop_cron30 (30 * k + 95) 10002 (30 * k) 0 (by omega) (by omega)]
  omega

/-- C9: an automatic (non-manual) execution pass whose fetched actionable
list is empty is a no-op: no move requests are issued, no notification is
dispatched by this layer, and `lastMoveTime` is not written.  (The manual
pull path, `isManual = true`, is `triggerManualExecution` in the spec's
vocabulary, not a rule execution; it dispatches an informational
notification on the same empty case.) -/
theorem c9_empty_execution_noop (queueMode : Option String)
    (moveCountSetting : Option Int) (showNotifications : Option Bool)
    (allTabs : List Tab) (mv : Nat → Nat → Option Nat) :
    moveActionableTabsToTop false queueMode moveCountSetting showNotifications [] allTabs mv
      = { results := [], notifications := [], lastMoveTimeSet := false } := by
  have hs : ∀ qm, sortActionableTabs qm ([] : List ActTab) = [] := by
    intro qm
    unfold sortActionableTabs
    split_ifs <;> rfl
  simp [moveActionableTabsToTop, hs]

theorem moveLoop_desired (mv : Nat → Nat → Option Nat) (target : Nat) :
    ∀ (batch : List ActTab) (i : Nat),
      (moveLoop mv target batch i).map (fun r => r.desiredIndex)
        = List.range' (target + i) batch.length
      ∧ (moveLoop mv target batch i).map (fun r => r.tabId)
        = batch.map (fun a => a.tabId) := by
  intro batch
  induction batch with
  | nil => intro i; exact ⟨rfl, rfl⟩
  | cons a rest ih =>
    intro i
    have h1 := (ih (i + 1)).1
    have h2 := (ih (i + 1)).2
    simp only [moveLoop]
    cases hmv : mv a.tabId (target + i) with
    | some n =>
      refine ⟨?_, ?_⟩ <;> simp [List.range', h1, h2, Nat.add_assoc]
    | none =>
      refine ⟨?_, ?_⟩ <;> simp [List.range', h1, h2, Nat.add_assoc]

/-- C8: the destination base index is the total (valid) item count for
`moveDirection = right` and the pinned-item count otherwise, and the move
loop requests, for the i-th item of the batch, a move to `base + i` (the
requested destinations form the contiguous range starting at the base, in
batch order); with 1 pinned tab, direction `left` and two actionable tabs
the two requested (and resulting) indices are 1 and 2. -/
theorem c8_destination_indices (allTabs : List Tab) (mv : Nat → Nat → Option Nat)
    (batch : List ActTab) (targetIndex : Nat) :
    getTargetIndexForActionableTabs "right" allTabs = (validTabs allTabs).length
    ∧ getTargetIndexForActionableTabs "left" allTabs
        = ((validTabs allTabs).filter (fun t => t.pinned)).length
    ∧ (moveActionableTabs mv batch targetIndex).map (fun r => r.desiredIndex)
        = List.range' targetIndex batch.length
    ∧ (moveActionableTabs mv batch targetIndex).map (fun r => r.tabId)
        = batch.map (fun a => a.tabId)
    ∧ (moveActionableTabs (fun _ j => some j)
          [{ tabId := 1, markedAt := 10, index := 1 }, { tabId := 2, markedAt := 11, index := 2 }]
          (getTargetIndexForActionableTabs "left"
            [{ id := some 0, index := 0, pinned := true },
             { id := some 1, index := 1, pinned := false },
             { id := some 2, index := 2, pinned := false }])).map (fun r => r.newIndex)
        = [1, 2] := by
  refine ⟨rfl, rfl, ?_, (moveLoop_desired mv targetIndex batch 0).2, by decide⟩
  simpa using (moveLoop_desired mv targetIndex batch 0).1

instance : IsTotal ActTab (fun a b => a.markedAt ≤ b.markedAt) :=
  ⟨fun a b => Int.le_total a.markedAt b.markedAt⟩

instance : IsTrans ActTab (fun a b => a.markedAt ≤ b.markedAt) :=
  ⟨fun _ _ _ h1 h2 => le_trans h1 h2⟩

instance : IsTotal ActTab (fun a b => b.markedAt ≤ a.markedAt) :=
  ⟨fun a b => Int.le_total b.markedAt a.markedAt⟩

instance : IsTrans ActTab (fun a b => b.markedAt ≤ a.markedAt) :=
  ⟨fun _ _ _ h1 h2 => le_trans h2 h1⟩

instance : IsTotal ActTab (fun a b => a.index ≤ b.index) :=
  ⟨fun a b => Nat.le_total a.index b.index⟩

instance : IsTrans ActTab (fun a b => a.index ≤ b.index) :=
  ⟨fun _ _ _ h1 h2 => le_trans h1 h2⟩

instance : IsTotal ActTab (fun a b => b.index ≤ a.index) :=
  ⟨fun a b => Nat.le_total b.index a.index⟩

instance : IsTrans ActTab (fun a b => b.index ≤ a.index) :=
  ⟨fun _ _ _ h1 h2 => le_trans h2 h1⟩

theorem filter_key_orderedInsert (r : ActTab → ActTab → Prop) [DecidableRel r]
    (key : ActTab → Int) (hr : ∀ a b, r a b ↔ key a ≤ key b) (a : ActTab) (c : Int) :
    ∀ l : List ActTab,
      (List.orderedInsert r a l).filter (fun x => decide (key x = c))
        = if key a = c then a :: l.filter (fun x => decide (key x = c))
          else l.filter (fun x => decide (key x = c)) := by
  intro l
  induction l with
  | nil =>
    by_cases hac : key a = c <;> simp [List.orderedInsert, List.filter_cons, hac]
  | cons b l ih =>
    by_cases hab : r a b
    · simp only [List.orderedInsert, if_pos hab]
      by_cases hac : key a = c <;> simp [List.filter_cons, hac]
    · have hlt : key b < key a := by
        have h3 : ¬ (key a ≤ key b) := fun hle => hab ((hr a b).mpr hle)
        omega
      simp only [List.orderedInsert, if_neg hab]
      rw [List.filter_cons]
      by_cases hac : key a = c
      · have hbc : ¬ (key b = c) := by omega
        simp [hbc, ih, hac, List.filter_cons]
      · simp [ih, hac, List.filter_cons]

theorem filter_key_insertionSort (r : ActTab → ActTab → Prop) [DecidableRel r]
    (key : ActTab → Int) (hr : ∀ a b, r a b ↔ key a ≤ key b) (c : Int) :
    ∀ l : List ActTab,
      (List.insertionSort r l).filter (fun x => decide (key x = c))
        = l.filter (fun x => decide (key x = c)) := by
  intro l
  induction l with
  | nil => rfl
  | cons a l ih =>
    simp only [List.insertionSort]
    rw [filter_key_orderedInsert r key hr a c]
    by_cases hac : key a = c <;> simp [hac, ih, List.filter_cons]

/-- C7 (amended): `getActionableTabsSorted` recognises the legacy queue-mode
spellings `oldest-first`/`newest-first`/`leftmost-first`/`rightmost-first`,
sorting respectively by ascending `markedAt`, descending `markedAt`,
ascending position index and descending position index, as a stable
permutation (items with equal keys keep their pre-sort relative order);
any other queue-mode string — including the bare spellings
`oldest`/`newest`/`leftmost`/`rightmost` used by the current `Rule` type —
matches no `case` and leaves the list in its original order.  In the
scenario with A = (markedAt 100, index 3) and B = (markedAt 200, index 1),
fetched in tab order [B, A], `oldest-first` yields [A, B] and
`leftmost-first` yields [B, A]. -/
theorem c7_queue_mode_sort :
    (∀ l : List ActTab,
      List.Sorted (fun a b : ActTab => a.markedAt ≤ b.markedAt)
        (sortActionableTabs "oldest-first" l)
      ∧ List.Sorted (fun a b : ActTab => b.markedAt ≤ a.markedAt)
        (sortActionableTabs "newest-first" l)
      ∧ List.Sorted (fun a b : ActTab => a.index ≤ b.index)
        (sortActionableTabs "leftmost-first" l)
      ∧ List.Sorted (fun a b : ActTab => b.index ≤ a.index)
        (sortActionableTabs "rightmost-first" l))
    ∧ (∀ qm (l : List ActTab), (sortActionableTabs qm l).Perm l)
    ∧ (∀ (l : List ActTab) (c : Int),
        (sortActionableTabs "oldest-first" l).filter (fun x => decide (x.markedAt = c))
          = l.filter (fun x => decide (x.markedAt = c))
        ∧ (sortActionableTabs "newest-first" l).filter (fun x => decide (x.markedAt = c))
          = l.filter (fun x => decide (x.markedAt = c)))
    ∧ (∀ (l : List ActTab) (c : Nat),
        (sortActionableTabs "leftmost-first" l).filter (fun x => decide (x.index = c))
          = l.filter (fun x => decide (x.index = c))
        ∧ (sortActionableTabs "rightmost-first" l).filter (fun x => decide (x.index = c))
          = l.filter (fun x => decide (x.index = c)))
    ∧ (∀ qm (l : List ActTab), qm ≠ "oldest-first" → qm ≠ "newest-first" →
        qm ≠ "leftmost-first" → qm ≠ "rightmost-first" → sortActionableTabs qm l = l)
    ∧ sortActionableTabs "oldest-first"
        [{ tabId := 2, markedAt := 200, index := 1 }, { tabId := 1, markedAt := 100, index := 3 }]
        = [{ tabId := 1, markedAt := 100, index := 3 }, { tabId := 2, markedAt := 200, index := 1 }]
    ∧ sortActionableTabs "leftmost-first"
        [{ tabId := 2, markedAt := 200, index := 1 }, { tabId := 1, markedAt := 100, index := 3 }]
        = [{ tabId := 2, markedAt := 200, index := 1 }, { tabId := 1, markedAt := 100, index := 3 }] := by
  have e1 : ∀ l : List ActTab, sortActionableTabs "oldest-first" l
      = List.insertionSort (fun a b : ActTab => a.markedAt ≤ b.markedAt) l := fun l => rfl
  have e2 : ∀ l : List ActTab, sortActionableTabs "newest-first" l
      = List.insertionSort (fun a b : ActTab => b.markedAt ≤ a.markedAt) l := fun l => rfl
  have e3 : ∀ l : List ActTab, sortActionableTabs "leftmost-first" l
      = List.insertionSort (fun a b : ActTab => a.index ≤ b.index) l := fun l => rfl
  have e4 : ∀ l : List ActTab, sortActionableTabs "rightmost-first" l
      = List.insertionSort (fun a b : ActTab => b.index ≤ a.index) l := fun l => rfl
  refine ⟨?_, ?_, ?_, ?_, ?_, by decide, by decide⟩
  · intro l
    rw [e1 l, e2 l, e3 l, e4 l]
    exact ⟨List.sorted_insertionSort _ l, List.sorted_insertionSort _ l,
      List.sorted_insertionSort _ l, List.sorted_insertionSort _ l⟩
  · intro qm l
    unfold sortActionableTabs
    split_ifs <;> first | exact List.perm_insertionSort _ _ | exact List.Perm.refl _
  · intro l c
    constructor
    · rw [e1 l]
      exact filter_key_insertionSort _ (fun x => x.markedAt) (fun a b => Iff.rfl) c l
    · rw [e2 l]
      have h := filter_key_insertionSort (fun a b : ActTab => b.markedAt ≤ a.markedAt)
        (fun x => -x.markedAt)
        (fun a b => by show b.markedAt ≤ a.markedAt ↔ -a.markedAt ≤ -b.markedAt; omega) (-c) l
      have hconv : ∀ m : List ActTab,
          m.filter (fun x => decide (-x.markedAt = -c)) = m.filter (fun x => decide (x.markedAt = c)) := by
        intro m
        apply List.filter_congr
        intro x _
        simp only [decide_eq_decide]
        omega
      rw [hconv, hconv] at h
      exact h
  · intro l c
    constructor
    · rw [e3 l]
      have h := filter_key_insertionSort (fun a b : ActTab => a.index ≤ b.index)
        (fun x => (x.index : Int))
        (fun a b => by show a.index ≤ b.index ↔ (a.index : Int) ≤ (b.index : Int); omega) (c : Int) l
      have hconv : ∀ m : List ActTab,
          m.filter (fun x => decide ((x.index : Int) = (c : Int)))
            = m.filter (fun x => decide (x.index = c)) := by
        intro m
        apply List.filter_congr
        intro x _
        simp only [decide_eq_decide]
        omega
      rw [hconv, hconv] at h
      exact h
    · rw [e4 l]
      have h := filter_key_insertionSort (fun a b : ActTab => b.index ≤ a.index)
        (fun x => -(x.index : Int))
        (fun a b => by show b.index ≤ a.index ↔ -(a.index : Int) ≤ -(b.index : Int); omega)
        (-(c : Int)) l
      have hconv : ∀ m : List ActTab,
          m.filter (fun x => decide (-(x.index : Int) = -(c : Int)))
            = m.filter (fun x => decide (x.index = c)) := by
        intro m
        apply List.filter_congr
        intro x _
        simp only [decide_eq_decide]
        omega
      rw [hconv, hconv] at h
      exact h
  · intro qm l h1 h2 h3 h4
    unfold sortActionableTabs
    rw [if_neg h1, if_neg h2, if_neg h3, if_neg h4]

/-- C7 counterexample: with the bare spelling `"oldest"` (the one the claim
and the current `Rule` type use) the switch matches no case, so the list is
returned in tab order [B, A] rather than the ascending-`markedAt` order
[A, B] the claim requires. -/
theorem c7_counterexample :
    sortActionableTabs "oldest"
        [{ tabId := 2, markedAt := 200, index := 1 }, { tabId := 1, markedAt := 100, index := 3 }]
      = [{ tabId := 2, markedAt := 200, index := 1 }, { tabId := 1, markedAt := 100, index := 3 }]
    ∧ ¬ List.Sorted (fun a b : ActTab => a.markedAt ≤ b.markedAt)
        (sortActionableTabs "oldest"
          [{ tabId := 2, markedAt := 200, index := 1 },
           { tabId := 1, markedAt := 100, index := 3 }]) := by
  constructor
  · rfl
  · intro h
    have h1 : List.Sorted (fun a b : ActTab => a.markedAt ≤ b.markedAt)
        [{ tabId := 2, markedAt := 200, index := 1 },
         { tabId := 1, markedAt := 100, index := 3 }] := h
    have h2 := List.rel_of_sorted_cons h1 _ (List.mem_singleton.mpr rfl)
    simp at h2

theorem c7_queue_mode_sort_witness :
    sortActionableTabs "oldest"
        [{ tabId := 2, markedAt := 200, index := 1 }, { tabId := 1, markedAt := 100, index := 3 }]
      = [{ tabId := 2, markedAt := 200, index := 1 }, { tabId := 1, markedAt := 100, index := 3 }] :=
  c7_queue_mode_sort.2.2.2.2.1 "oldest"
    [{ tabId := 2, markedAt := 200, index := 1 }, { tabId := 1, markedAt := 100, index := 3 }]
    (by decide) (by decide) (by decide) (by decide)

/-- C2: the rule set is never empty.  `autoSaveRules []` (the UI's single
write path, `mutateRules` in the spec) is a no-op that retains the previous
state; every UI operation (save, add, remove, reorder, edit) preserves
non-emptiness of both the in-memory and the persisted rule list; and
`getSettings` (load) always returns a non-empty rule list and never persists
an empty one. -/
theorem c2_rules_never_empty :
    (∀ st : UiState, autoSaveRules [] st = st)
    ∧ (∀ (st : UiState) (newRules : List Rule), st.rules ≠ [] → st.persisted ≠ [] →
        (autoSaveRules newRules st).rules ≠ [] ∧ (autoSaveRules newRules st).persisted ≠ [])
    ∧ (∀ (st : UiState) (freshId : String), st.rules ≠ [] → st.persisted ≠ [] →
        (uiAddRule freshId st).rules ≠ [] ∧ (uiAddRule freshId st).persisted ≠ [])
    ∧ (∀ (st : UiState) (i : Nat), st.rules ≠ [] → st.persisted ≠ [] →
        (uiRemoveRule i st).rules ≠ [] ∧ (uiRemoveRule i st).persisted ≠ [])
    ∧ (∀ (st : UiState) (i : Nat) (up : Bool), st.rules ≠ [] → st.persisted ≠ [] →
        (uiMoveRule i up st).rules ≠ [] ∧ (uiMoveRule i up st).persisted ≠ [])
    ∧ (∀ (st : UiState) (i : Nat) (f : Rule → Rule), st.rules ≠ [] → st.persisted ≠ [] →
        (uiUpdateRule i f st).rules ≠ [] ∧ (uiUpdateRule i f st).persisted ≠ [])
    ∧ (∀ st : Store, (getSettings st).1.rules ≠ [])
    ∧ (∀ (st : Store) (rs : List Rule), (getSettings st).2.rules = some rs → rs ≠ []) := by
  have hauto : ∀ (st : UiState) (rs : List Rule), st.rules ≠ [] → st.persisted ≠ [] →
      (autoSaveRules rs st).rules ≠ [] ∧ (autoSaveRules rs st).persisted ≠ [] := by
    intro st rs h1 h2
    unfold autoSaveRules
    split_ifs with h
    · exact ⟨h1, h2⟩
    · cases rs with
      | nil => simp at h
      | cons a as => exact ⟨by simp, by simp⟩
  refine ⟨?_, hauto, ?_, ?_, ?_, ?_, ?_, ?_⟩
  · intro st
    simp [autoSaveRules]
  · intro st freshId h1 h2
    unfold uiAddRule
    exact hauto st _ h1 h2
  · intro st i h1 h2
    unfold uiRemoveRule
    split_ifs with h
    · exact ⟨h1, h2⟩
    · exact hauto st _ h1 h2
  · intro st i up h1 h2
    unfold uiMoveRule
    cases st.rules[i]? with
    | none => exact ⟨h1, h2⟩
    | some r => exact hauto st _ h1 h2
  · intro st i f h1 h2
    unfold uiUpdateRule
    exact hauto st _ h1 h2
  · intro st
    by_cases h1 : st.version = some 1
    · by_cases h2 : ((st.rules.getD [defaultRule]).map migrateRuleQueueMode).isEmpty
      · simp [getSettings, h1, h2]
      · simp [getSettings, h1, h2]
        cases hl : st.rules.getD [defaultRule] with
        | nil => rw [hl] at h2; simp at h2
        | cons a as => simp
    · by_cases h3 : needsMigration st = true
      · simp [getSettings, h1, h3]
      · simp [getSettings, h1, h3]
  · intro st rs
    by_cases h1 : st.version = some 1
    · by_cases h2 : ((st.rules.getD [defaultRule]).map migrateRuleQueueMode).isEmpty
      · simp [getSettings, h1, h2]
        intro h
        simp [← h]
      · by_cases h4 : (st.rules.getD [defaultRule]).map migrateRuleQueueMode
            ≠ st.rules.getD [defaultRule]
        · simp [getSettings, h1, h2, h4]
          intro h
          rw [h] at h2
          intro hc
          rw [hc] at h2
          simp at h2
        · simp [getSettings, h1, h2, h4]
          intro h hc
          rw [h, hc] at h2
          simp at h2
    · by_cases h3 : needsMigration st = true
      · simp [getSettings, h1, h3]
        intro h
        simp [← h]
      · simp [getSettings, h1, h3]
        intro h
        simp [← h]

theorem c2_rules_never_empty_witness :
    (uiRemoveRule 0 { rules := [defaultRule], persisted := [defaultRule] }).rules ≠ []
    ∧ (uiRemoveRule 0 { rules := [defaultRule], persisted := [defaultRule] }).persisted ≠ [] :=
  c2_rules_never_empty.2.2.2.1 { rules := [defaultRule], persisted := [defaultRule] } 0
    (by decide) (by decide)

theorem migrateQueueMode_ne_empty (o : Option String) (m : String)
    (h : migrateQueueMode o = some m) : m ≠ "" := by
  unfold migrateQueueMode at h
  split at h <;>
    first
      | exact Option.noConfusion h
      | (injection h with h2; rw [← h2]; decide)

/-- C1 counterexample: a legacy store whose `queueMode` is the legacy
default spelling `"oldest-first"` migrates to a rule whose `queueMode` is
`"oldest"` — the migrated field does not equal the legacy value, so the
claim's "five fields equal the legacy values" fails as stated. -/
theorem c1_legacy_migration_counterexample :
    c1CounterStore.version = none
    ∧ c1CounterStore.queueMode = some "oldest-first"
    ∧ (getSettings c1CounterStore).1.rules.map (fun r => r.queueMode) = ["oldest"]
    ∧ ("oldest" : String) ≠ "oldest-first" := by
  refine ⟨rfl, rfl, rfl, by decide⟩

/-- C1 (amended): a legacy flat store without version marker in which any of
the five legacy fields is present migrates to a version-1 envelope with
exactly one rule (id `"legacy"`) whose fields equal the present legacy
values with legacy queue-mode spellings normalised to current spellings,
defaults substituted for fields that are absent or falsy (empty string,
zero — except `showNotifications`, which keeps any present boolean), and
all six legacy flat keys are removed from the persisted store. -/
theorem c1_legacy_migration (st : Store)
    (hv : st.version = none)
    (hleg : st.cronSchedule ≠ none ∨ st.queueMode ≠ none ∨ st.moveCount ≠ none
      ∨ st.moveDirection ≠ none ∨ st.showNotifications ≠ none) :
    legacyMigrationOutcome st := by
  have hv' : ¬ st.version = some 1 := by rw [hv]; simp
  have hm : needsMigration st = true := by
    unfold needsMigration
    rcases hleg with h | h | h | h | h <;>
      simp [Option.isSome_iff_exists, Option.ne_none_iff_exists'.mp h]
  unfold legacyMigrationOutcome
  refine ⟨legacyMigratedRule st, ?_⟩
  simp only [getSettings, if_neg hv', if_pos hm]
  refine ⟨trivial, trivial, trivial, ?_, ?_, ?_, ?_, ?_, ?_, ?_, ?_, ?_, ?_, ?_, ?_, ?_,
    trivial, trivial, trivial, trivial, trivial, trivial⟩
  · rfl
  · intro s hs hne
    simp [legacyMigratedRule, jsOrString, hs, hne]
  · intro h
    rcases h with h | h <;> simp [legacyMigratedRule, jsOrString, h, defaultRule]
  · intro s m hs hm2
    have := migrateQueueMode_ne_empty (some s) m hm2
    simp [legacyMigratedRule, jsOrString, hs, hm2, this]
  · intro h
    simp [legacyMigratedRule, jsOrString, h, defaultRule]
  · intro n hn hne
    simp [legacyMigratedRule, jsOrInt, hn, hne]
  · intro h
    rcases h with h | h <;> simp [legacyMigratedRule, jsOrInt, h, defaultRule]
  · intro s hs hne
    simp [legacyMigratedRule, jsOrString, hs, hne]
  · intro h
    rcases h with h | h <;> simp [legacyMigratedRule, jsOrString, h, defaultRule]
  · intro b hb
    simp [legacyMigratedRule, hb]
  · intro h
    simp [legacyMigratedRule, h, defaultRule]
  · intro t ht hne
    simp [legacyMigratedRule, jsOrNullTime, ht, hne]
  · intro h
    rcases h with h | h | h <;> simp [legacyMigratedRule, jsOrNullTime, h]

theorem c1_legacy_migration_witness :
    c1WitnessStore.version = none
    ∧ (c1WitnessStore.cronSchedule ≠ none ∨ c1WitnessStore.queueMode ≠ none
      ∨ c1WitnessStore.moveCount ≠ none ∨ c1WitnessStore.moveDirection ≠ none
      ∨ c1WitnessStore.showNotifications ≠ none)
    ∧ legacyMigrationOutcome c1WitnessStore :=
  ⟨rfl, Or.inl (by decide),
    c1_legacy_migration c1WitnessStore rfl (Or.inl (by decide))⟩

theorem minTime_some (cs : List (Nat × Nat)) : ∀ m : Nat,
    ∃ v, minTime (some m) cs = some v ∧ v ≤ m ∧ ∀ c ∈ cs, v ≤ c.2 := by
  induction cs with
  | nil => intro m; exact ⟨m, rfl, le_refl m, by simp⟩
  | cons c cs ih =>
    intro m
    obtain ⟨v, hv, hvm, hvc⟩ := ih (min m c.2)
    refine ⟨v, hv, by omega, ?_⟩
    intro d hd
    rcases List.mem_cons.mp hd with h | h
    · subst h; omega
    · exact hvc d h

theorem minTime_mem (cs : List (Nat × Nat)) : ∀ (t : Option Nat) (v : Nat),
    minTime t cs = some v → t = some v ∨ ∃ c ∈ cs, c.2 = v := by
  induction cs with
  | nil => intro t v h; exact Or.inl h
  | cons c cs ih =>
    intro t v h
    cases t with
    | none =>
      rcases ih (some c.2) v h with h2 | h2
      · exact Or.inr ⟨c, List.mem_cons_self c cs, by injection h2⟩
      · obtain ⟨d, hd, hdv⟩ := h2
        exact Or.inr ⟨d, List.mem_cons_of_mem c hd, hdv⟩
    | some m =>
      rcases ih (some (min m c.2)) v h with h2 | h2
      · have hmin : min m c.2 = v := by injection h2
        by_cases hmc : m ≤ c.2
        · left
          rw [min_eq_left hmc] at hmin
          rw [hmin]
        · right
          rw [min_eq_right (le_of_not_le hmc)] at hmin
          exact ⟨c, List.mem_cons_self c cs, hmin⟩
      · obtain ⟨d, hd, hdv⟩ := h2
        exact Or.inr ⟨d, List.mem_cons_of_mem c hd, hdv⟩

theorem minTime_none_spec (cs : List (Nat × Nat)) (hne : cs ≠ []) :
    ∃ v, minTime none cs = some v ∧ (∀ c ∈ cs, v ≤ c.2) ∧ ∃ c ∈ cs, c.2 = v := by
  cases cs with
  | nil => exact absurd rfl hne
  | cons c cs =>
    obtain ⟨v, hv, hvm, hvc⟩ := minTime_some cs c.2
    have hv' : minTime none (c :: cs) = some v := hv
    refine ⟨v, hv', ?_, ?_⟩
    · intro d hd
      rcases List.mem_cons.mp hd with h | h
      · subst h; exact hvm
      · exact hvc d h
    · rcases minTime_mem cs (some c.2) v hv with h2 | h2
      · exact ⟨c, List.mem_cons_self c cs, by injection h2⟩
      · obtain ⟨d, hd, hdv⟩ := h2
        exact ⟨d, List.mem_cons_of_mem c hd, hdv⟩

theorem goSpec_eq : ∀ (cs : List (Nat × Nat)) (t : Option Nat) (acc : List Nat),
    (t = none → acc = []) →
    goSpec t acc cs
      = (if t ≠ none ∧ t = minTime t cs then acc else [])
        ++ (cs.filter (fun c => decide (minTime t cs = some c.2))).map Prod.fst := by
  intro cs
  induction cs with
  | nil =>
    intro t acc hta
    cases t with
    | none => simp [goSpec, minTime, hta rfl]
    | some m => simp [goSpec, minTime]
  | cons c cs ih =>
    intro t acc hta
    cases t with
    | none =>
      rw [hta rfl]
      have hL : goSpec none [] (c :: cs) = goSpec (some c.2) [c.1] cs := rfl
      have hM : minTime none (c :: cs) = minTime (some c.2) cs := rfl
      rw [hL, ih (some c.2) [c.1] (by simp), hM]
      obtain ⟨v, hv, hvm, hvc⟩ := minTime_some cs c.2
      rw [hv, List.filter_cons]
      by_cases hveq : v = c.2
      · simp [hveq, List.filter_cons]
      · simp [hveq, Ne.symm hveq, List.filter_cons]
    | some m =>
      by_cases hEq : c.2 = m
      · have hL : goSpec (some m) acc (c :: cs) = goSpec (some m) (acc ++ [c.1]) cs := by
          simp [goSpec, hEq]
        have hM : minTime (some m) (c :: cs) = minTime (some m) cs := by
          simp [minTime, hEq]
        rw [hL, ih (some m) (acc ++ [c.1]) (by simp), hM]
        obtain ⟨v, hv, hvm, hvc⟩ := minTime_some cs m
        rw [hv, List.filter_cons]
        by_cases hveq : v = m
        · simp [hveq, hEq, List.append_assoc]
        · simp [hveq, hEq, Ne.symm hveq]
      · by_cases hLt : c.2 < m
        · have hL : goSpec (some m) acc (c :: cs) = goSpec (some c.2) [c.1] cs := by
            simp [goSpec, hEq, hLt]
          have hM : minTime (some m) (c :: cs) = minTime (some c.2) cs := by
            have hmin : min m c.2 = c.2 := by omega
            simp [minTime, hmin]
          rw [hL, ih (some c.2) [c.1] (by simp), hM]
          obtain ⟨v, hv, hvm, hvc⟩ := minTime_some cs c.2
          rw [hv, List.filter_cons]
          have hne : ¬ (m = v) := by omega
          by_cases hveq : v = c.2
          · simp [hveq, hne, Ne.symm hEq, List.filter_cons]
          · simp [hveq, Ne.symm hveq, hne, Ne.symm hEq]
        · have hGt : m < c.2 := by omega
          have hL : goSpec (some m) acc (c :: cs) = goSpec (some m) acc cs := by
            simp [goSpec, hEq, hLt]
          have hM : minTime (some m) (c :: cs) = minTime (some m) cs := by
            have hmin : min m c.2 = m := by omega
            simp [minTime, hmin]
          rw [hL, ih (some m) acc (by simp), hM]
          obtain ⟨v, hv, hvm, hvc⟩ := minTime_some cs m
          rw [hv, List.filter_cons]
          have hhead : ¬ (v = c.2) := by omega
          simp [hhead, Ne.symm hhead]

theorem ruleTimes_ge (parse : CronParser) (now : Nat) :
    ∀ (rs : List Rule) (i : Nat) (c : Nat × Nat),
      c ∈ ruleTimes parse now rs i → i ≤ c.1 := by
  intro rs
  induction rs with
  | nil => intro i c h; simp [ruleTimes] at h
  | cons r rs ih =>
    intro i c h
    cases hr : ruleTime parse now r with
    | some t =>
      rw [ruleTimes, hr] at h
      rcases List.mem_cons.mp h with h2 | h2
      · subst h2; exact le_refl i
      · have := ih (i + 1) c h2
        omega
    | none =>
      rw [ruleTimes, hr] at h
      have := ih (i + 1) c h
      omega

theorem ruleTimes_pairwise (parse : CronParser) (now : Nat) :
    ∀ (rs : List Rule) (i : Nat),
      List.Pairwise (fun a b : Nat × Nat => a.1 < b.1) (ruleTimes parse now rs i) := by
  intro rs
  induction rs with
  | nil => intro i; simp [ruleTimes]
  | cons r rs ih =>
    intro i
    cases hr : ruleTime parse now r with
    | some t =>
      rw [ruleTimes, hr]
      refine List.Pairwise.cons ?_ (ih (i + 1))
      intro b hb
      have := ruleTimes_ge parse now rs (i + 1) b hb
      omega
    | none =>
      rw [ruleTimes, hr]
      exact ih (i + 1)

theorem ruleTimes_mem (parse : CronParser) (now : Nat) :
    ∀ (rs : List Rule) (i j t : Nat),
      ((j, t) ∈ ruleTimes parse now rs i
        ↔ ∃ r, i ≤ j ∧ rs[j - i]? = some r ∧ ruleTime parse now r = some t) := by
  intro rs
  induction rs with
  | nil => intro i j t; simp [ruleTimes]
  | cons r rs ih =>
    intro i j t
    cases hr : ruleTime parse now r with
    | some t0 =>
      rw [ruleTimes, hr]
      constructor
      · intro h
        rcases List.mem_cons.mp h with h2 | h2
        · have hj : j = i := congrArg Prod.fst h2
          have ht : t = t0 := congrArg Prod.snd h2
          refine ⟨r, ?_, ?_, ?_⟩
          · omega
          · rw [hj, Nat.sub_self]
            exact List.getElem?_cons_zero
          · rw [hr, ht]
        · obtain ⟨r2, hle, hget, hrt⟩ := (ih (i + 1) j t).mp h2
          refine ⟨r2, by omega, ?_, hrt⟩
          rw [show j - i = (j - (i + 1)) + 1 from by omega, List.getElem?_cons_succ]
          exact hget
      · rintro ⟨r2, hle, hget, hrt⟩
        by_cases hji : j = i
        · subst hji
          rw [Nat.sub_self, List.getElem?_cons_zero] at hget
          injection hget with hget
          subst hget
          rw [hr] at hrt
          injection hrt with hrt
          subst hrt
          exact List.mem_cons_self _ _
        · apply List.mem_cons_of_mem
          apply (ih (i + 1) j t).mpr
          refine ⟨r2, by omega, ?_, hrt⟩
          rw [show j - i = (j - (i + 1)) + 1 from by omega, List.getElem?_cons_succ] at hget
          exact hget
    | none =>
      rw [ruleTimes, hr]
      rw [ih (i + 1) j t]
      constructor
      · rintro ⟨r2, hle, hget, hrt⟩
        refine ⟨r2, by omega, ?_, hrt⟩
        rw [show j - i = (j - (i + 1)) + 1 from by omega, List.getElem?_cons_succ]
        exact hget
      · rintro ⟨r2, hle, hget, hrt⟩
        by_cases hji : j = i
        · subst hji
          rw [Nat.sub_self, List.getElem?_cons_zero] at hget
          injection hget with hget
          subst hget
          rw [hr] at hrt
          exact absurd hrt (by simp)
        · refine ⟨r2, by omega, ?_, hrt⟩
          rw [show j - i = (j - (i + 1)) + 1 from by omega, List.getElem?_cons_succ] at hget
          exact hget

theorem gnerGo_eq_goSpec (parse : CronParser) (now : Nat) :
    ∀ (rs : List Rule) (i : Nat) (t : Option Nat) (acc : List Nat),
      (∀ m, t = some m → 0 < m) →
      (∀ c ∈ ruleTimes parse now rs i, 0 < c.2) →
      gnerGo parse now rs i t acc = goSpec t acc (ruleTimes parse now rs i) := by
  intro rs
  induction rs with
  | nil => intro i t acc ht hpos; rfl
  | cons r rs ih =>
    intro i t acc ht hpos
    by_cases hb : isBlankSchedule r.cronSchedule
    · have hr : ruleTime parse now r = none := by simp [ruleTime, hb]
      have hcand : ruleTimes parse now (r :: rs) i = ruleTimes parse now rs (i + 1) := by
        rw [ruleTimes, hr]
      have hg : gnerGo parse now (r :: rs) i t acc = gnerGo parse now rs (i + 1) t acc := by
        rw [gnerGo, if_pos hb]
      rw [hg, hcand]
      rw [hcand] at hpos
      exact ih (i + 1) t acc ht hpos
    · rw [Bool.not_eq_true] at hb
      cases hp : parse r.cronSchedule with
      | none =>
        have hr : ruleTime parse now r = none := by simp [ruleTime, hb, hp]
        have hcand : ruleTimes parse now (r :: rs) i = ruleTimes parse now rs (i + 1) := by
          rw [ruleTimes, hr]
        have hg : gnerGo parse now (r :: rs) i t acc = gnerGo parse now rs (i + 1) t acc := by
          rw [gnerGo, if_neg (by simp [hb])]
          simp [hp]
        rw [hg, hcand]
        rw [hcand] at hpos
        exact ih (i + 1) t acc ht hpos
      | some f =>
        have hr : ruleTime parse now r = some (f now) := by simp [ruleTime, hb, hp]
        have hcand : ruleTimes parse now (r :: rs) i
            = (i, f now) :: ruleTimes parse now rs (i + 1) := by
          rw [ruleTimes, hr]
        have hfpos : 0 < f now :=
          hpos (i, f now) (by rw [hcand]; exact List.mem_cons_self _ _)
        have hpos2 : ∀ c ∈ ruleTimes parse now rs (i + 1), 0 < c.2 := fun c hc =>
          hpos c (by rw [hcand]; exact List.mem_cons_of_mem _ hc)
        cases t with
        | none =>
          have hg : gnerGo parse now (r :: rs) i none acc
              = gnerGo parse now rs (i + 1) (some (f now)) (acc ++ [i]) := by
            rw [gnerGo, if_neg (by simp [hb])]
            simp [hp]
          rw [hg, hcand]
          rw [show goSpec none acc ((i, f now) :: ruleTimes parse now rs (i + 1))
              = goSpec (some (f now)) (acc ++ [i]) (ruleTimes parse now rs (i + 1)) from rfl]
          exact ih (i + 1) (some (f now)) (acc ++ [i])
            (fun m hm => by injection hm with hm; omega) hpos2
        | some m =>
          have hm0 : ¬ (m = 0) := fun h => by have := ht m rfl; omega
          by_cases hEq : f now = m
          · have hg : gnerGo parse now (r :: rs) i (some m) acc
                = gnerGo parse now rs (i + 1) (some m) (acc ++ [i]) := by
              rw [gnerGo, if_neg (by simp [hb])]
              simp [hp, hm0, hEq]
            have hgs : goSpec (some m) acc ((i, f now) :: ruleTimes parse now rs (i + 1))
                = goSpec (some m) (acc ++ [i]) (ruleTimes parse now rs (i + 1)) := by
              simp [goSpec, hEq]
            rw [hg, hcand, hgs]
            exact ih (i + 1) (some m) (acc ++ [i]) ht hpos2
          · by_cases hLt : f now < m
            · have hg : gnerGo parse now (r :: rs) i (some m) acc
                  = gnerGo parse now rs (i + 1) (some (f now)) [i] := by
                rw [gnerGo, if_neg (by simp [hb])]
                simp [hp, hm0, hEq, hLt]
              have hgs : goSpec (some m) acc ((i, f now) :: ruleTimes parse now rs (i + 1))
                  = goSpec (some (f now)) [i] (ruleTimes parse now rs (i + 1)) := by
                simp [goSpec, hEq, hLt]
              rw [hg, hcand, hgs]
              exact ih (i + 1) (some (f now)) [i]
                (fun m2 hm2 => by injection hm2 with hm2; omega) hpos2
            · have hg : gnerGo parse now (r :: rs) i (some m) acc
                  = gnerGo parse now rs (i + 1) (some m) acc := by
                rw [gnerGo, if_neg (by simp [hb])]
                simp [hp, hm0, hEq, hLt]
              have hgs : goSpec (some m) acc ((i, f now) :: ruleTimes parse now rs (i + 1))
                  = goSpec (some m) acc (ruleTimes parse now rs (i + 1)) := by
                simp [goSpec, hEq, hLt]
              rw [hg, hcand, hgs]
              exact ih (i + 1) (some m) acc ht hpos2

/-- C10: `getNextExecutingRulesWithParser` returns exactly the indices, in
ascending list order, of the rules whose next occurrence time equals the
minimum over all rules with a non-blank, parsable schedule; blank or
unparsable rules never appear among the returned indices, and the result is
empty when no rule has a parsable non-empty schedule.  The hypothesis that
all execution times are positive reflects that `cron-parser` returns future
dates (a next-occurrence timestamp of exactly 0 ms would be read as "unset"
by the JS truthiness test `!nextExecutionTime`). -/
theorem c10_next_executing_rules (parse : CronParser) (now : Nat) (rules : List Rule)
    (hpos : ∀ c ∈ ruleTimes parse now rules 0, 0 < c.2) :
    nextExecutingSpec parse now rules := by
  have hgo : getNextExecutingRulesWithParser rules parse now
      = goSpec none [] (ruleTimes parse now rules 0) :=
    gnerGo_eq_goSpec parse now rules 0 none [] (fun m hm => Option.noConfusion hm) hpos
  have hmaster := goSpec_eq (ruleTimes parse now rules 0) none [] (fun _ => rfl)
  rw [if_neg (by simp)] at hmaster
  rw [List.nil_append] at hmaster
  unfold nextExecutingSpec
  refine ⟨?_, ?_, ?_, ?_⟩
  · by_cases hne : ruleTimes parse now rules 0 = []
    · rw [hgo, hmaster, hne]
      rfl
    · obtain ⟨v, hv, hle, cmin, hcm, hcveq⟩ := minTime_none_spec _ hne
      rw [hgo, hmaster]
      apply congrArg (List.map Prod.fst)
      apply List.filter_congr
      intro c hcmem
      rw [hv]
      by_cases hvc : v = c.2
      · have hall : ∀ d ∈ ruleTimes parse now rules 0, c.2 ≤ d.2 := fun d hd =>
          hvc ▸ hle d hd
        have h1 : decide (some v = some c.2) = true := by simp [hvc]
        have h2 : (ruleTimes parse now rules 0).all (fun d => decide (c.2 ≤ d.2)) = true :=
          List.all_eq_true.mpr (fun d hd => by simpa using hall d hd)
        rw [h1, h2]
      · have h1 : decide (some v = some c.2) = false := by simp [hvc]
        have hvle : v ≤ c.2 := hle c hcmem
        have hnle : ¬ (c.2 ≤ cmin.2) := by rw [hcveq]; omega
        have h2 : (ruleTimes parse now rules 0).all (fun d => decide (c.2 ≤ d.2)) = false := by
          cases hall2 : (ruleTimes parse now rules 0).all (fun d => decide (c.2 ≤ d.2)) with
          | false => rfl
          | true =>
            exact absurd (by simpa using List.all_eq_true.mp hall2 cmin hcm) hnle
        rw [h1, h2]
  · rw [hgo, hmaster]
    exact List.pairwise_map.mpr (List.Pairwise.filter _ (ruleTimes_pairwise parse now rules 0))
  · intro j t
    have h := ruleTimes_mem parse now rules 0 j t
    simpa using h
  · intro h
    rw [hgo, h]
    rfl

theorem c10_next_executing_rules_witness :
    (∀ c ∈ ruleTimes c10Parser 0 c10Rules 0, 0 < c.2)
    ∧ nextExecutingSpec c10Parser 0 c10Rules :=
  ⟨by decide, c10_next_executing_rules c10Parser 0 c10Rules (by decide)⟩
